import Mathlib

/-!
Verification of the dataset-construction pipeline of DLT-perf-model
(src/data/dataset.py), shallowly embedded in Lean 4.

Python dicts are modelled as insertion-ordered association lists
(List (String × PyVal)); numeric data is modelled symbolically (no claim
here depends on floating-point arithmetic, only on which keys are present,
which transforms are attached, and in which order values are collected).
Fallible Python operations (KeyError, IndexError, ValueError,
AttributeError) are modelled with Option / Except results.

The classes FeatureKeys and Normalizer and the Graph feature extractors
live in files of the repository that are not part of the verified sources
(src/data/graph.py, src/data/util.py); they are modelled from the spec and
are marked as such in their doc comments.
-/

set_option autoImplicit false

namespace DLT

/-! ## Association lists modelling Python dicts -/

/-- Lookup in an insertion-ordered association list: the Python expression
d.get(k) / d[k]. -/
def alLookup {κ α : Type} [DecidableEq κ] : List (κ × α) → κ → Option α
  | [], _ => none
  | (k, v) :: rest, q => if k = q then some v else alLookup rest q

/-- Update-or-append: the Python statement d[k] = v. An existing key keeps
its position; a new key is appended at the end, matching dict insertion
order. -/
def alSet {κ α : Type} [DecidableEq κ] : List (κ × α) → κ → α → List (κ × α)
  | [], q, v => [(q, v)]
  | (k, w) :: rest, q, v => if k = q then (q, v) :: rest else (k, w) :: alSet rest q v

/-- Fold describing how a sequence of update-or-append operations extends a
key list: keys already present are kept in place, new keys are appended in
first-occurrence order. -/
def keysAfter (ks : List String) (qs : List String) : List String :=
  qs.foldl (fun acc q => if q ∈ acc then acc else acc ++ [q]) ks

/-! ## Values -/

/-- Scaling mode selected by the normalization string: sklearn
StandardScaler or MinMaxScaler. -/
inductive ScalerKind where
  | standard : ScalerKind
  | minMax : ScalerKind
deriving DecidableEq, Repr

/-- Symbolic model of a Python value flowing through the pipeline. The
scaled constructor marks the (numerically uninterpreted) output of a
fitted scaler applied to a value. -/
inductive PyVal where
  | num : Int → PyVal
  | str : String → PyVal
  | list : List PyVal → PyVal
  | dict : List (String × PyVal) → PyVal
  | scaled : ScalerKind → PyVal → PyVal

/-- A feature or label dictionary: one sample-side of a raw sample. -/
abbrev Sample := List (String × PyVal)

/-- Python d[k] totalised with a default, used only where the surrounding
hypotheses guarantee the key is present. -/
def pyGetD (s : Sample) (k : String) : PyVal := (alLookup s k).getD (.num 0)

/-- Python iteration over a value: the elements of a list value, nothing
otherwise (iteration over a non-list is out of the modelled fragment). -/
def pyIter : PyVal → List PyVal
  | .list l => l
  | _ => []

/-! ## Feature key registry

Modelled from the spec: the class FeatureKeys of src/data/graph.py is not
among the verified sources. The spec describes a fixed vocabulary of named
feature roles (operator feature, subgraph feature, and their label
counterparts) together with a key-name suffix convention marking
tensor-bound keys; the roles are modelled as distinct strings carrying the
tensor-bound suffix. -/

/-- Modelled from the spec: the input-side operator-feature key of the
FeatureKeys registry. -/
def FeatureKeys.X_OP_FEAT : String := "x_op_feat"

/-- Modelled from the spec: the input-side subgraph-feature key of the
FeatureKeys registry. -/
def FeatureKeys.X_SUBGRAPH_FEAT : String := "x_subgraph_feat"

/-- Modelled from the spec: the label-side operator-feature key of the
FeatureKeys registry. -/
def FeatureKeys.Y_OP_FEAT : String := "y_op_feat"

/-- Modelled from the spec: the label-side subgraph-feature key of the
FeatureKeys registry. -/
def FeatureKeys.Y_SUBGRAPH_FEAT : String := "y_subgraph_feat"

/-- Modelled from the spec: the key-name suffix marking tensor-bound keys
for the collation post-processing pass. -/
def FeatureKeys.FEAT_SUFFIX : String := "feat"

/-! ## Scalers and the Normalizer -/

/-- A fitted sklearn scaler: the scaling mode and the pooled data the
scaler was fit on. Transform output is symbolic (PyVal.scaled), since no
claim depends on the numeric result of scaling. -/
structure FittedScaler where
  kind : ScalerKind
  fitted_on : List PyVal

/-- One entry of a Normalizer mapping, as built by the dataset variants:
an identity passthrough lambda, a fitted scaler applied directly, or a
lambda mapping a fitted scaler over the elements of a list value. -/
inductive Transform where
  | identity : Transform
  | scaler : FittedScaler → Transform
  | mapScaler : FittedScaler → Transform

/-- Modelled from the spec: the Normalizer of src/data/util.py is not
among the verified sources. It pairs a per-key transform mapping for
features (X) with one for labels (Y). -/
structure Normalizer where
  x_scaler_dict : List (String × Transform)
  y_scaler_dict : List (String × Transform)

/-- Symbolic application of a transform entry to one value. -/
def applyTransform : Transform → PyVal → PyVal
  | .identity, v => v
  | .scaler s, v => .scaled s.kind v
  | .mapScaler s, v => .list ((pyIter v).map (.scaled s.kind))

/-- Modelled from the spec: applying a Normalizer to one (feature, label)
pair applies the matching transform per key; a key with no entry in the
respective mapping is a fatal error (none). -/
def Normalizer.apply (n : Normalizer) (x y : Sample) : Option (Sample × Sample) := do
  let x' ← x.mapM (fun p => (alLookup n.x_scaler_dict p.1).map (fun t => (p.1, applyTransform t p.2)))
  let y' ← y.mapM (fun p => (alLookup n.y_scaler_dict p.1).map (fun t => (p.1, applyTransform t p.2)))
  pure (x', y')

/-- Python exceptions raised by the modelled fragment. -/
inductive PyError where
  | valueError : String → PyError
  | indexError : PyError
  | keyError : String → PyError
deriving DecidableEq

/-- A pooled fit call: fitScaler records the scaler construction plus the
fit over the pooled data (scaler_class() followed by .fit(pool)). -/
def fitScaler (sk : ScalerKind) (pool : List PyVal) : FittedScaler := ⟨sk, pool⟩

/-- Python y[key] for every y in a sample list: KeyError when a sample
lacks the key. -/
def lookupAll (samples : List Sample) (key : String) : Except PyError (List PyVal) :=
  match samples with
  | [] => .ok []
  | s :: rest =>
    match alLookup s key with
    | none => .error (.keyError key)
    | some v =>
      match lookupAll rest key with
      | .error e => .error e
      | .ok vs => .ok (v :: vs)

/-- One iteration of the key loop of MDataset._get_y_scaler_dict
(dataset.py lines 48 to 65). The accumulator carries the y_scaler_dict
built so far plus the instrumentation list of scaler fits performed. -/
def yScalerStep (labels : List Sample) (sk : ScalerKind)
    (acc : List (String × Transform) × List ScalerKind) (key : String) :
    Except PyError (List (String × Transform) × List ScalerKind) :=
  if key ≠ FeatureKeys.Y_OP_FEAT ∧ key ≠ FeatureKeys.Y_SUBGRAPH_FEAT then
    .ok (alSet acc.1 key .identity, acc.2)
  else if key = FeatureKeys.Y_SUBGRAPH_FEAT then
    match lookupAll labels key with
    | .error e => .error e
    | .ok pool => .ok (alSet acc.1 key (.scaler (fitScaler sk pool)), acc.2 ++ [sk])
  else
    match lookupAll labels FeatureKeys.Y_OP_FEAT with
    | .error e => .error e
    | .ok rows =>
      .ok (alSet acc.1 key (.mapScaler (fitScaler sk ((rows.map pyIter).flatten))),
        acc.2 ++ [sk])

/-- MDataset._get_y_scaler_dict (dataset.py lines 43 to 66): iterate over
the keys of the first label dict; labels[0] on an empty list raises
IndexError. -/
def get_y_scaler_dict (labels : List Sample) (sk : ScalerKind) :
    Except PyError (List (String × Transform) × List ScalerKind) :=
  match labels with
  | [] => .error .indexError
  | y0 :: _ => (y0.map Prod.fst).foldlM (yScalerStep labels sk) ([], [])

/-- One iteration of the key loop of OPDataset._init_normalizer_impl
(dataset.py lines 142 to 152). Line 152 of the source stores the fitted
operator-feature scaler under X_SUBGRAPH_FEAT, not under X_OP_FEAT; the
model preserves that assignment. -/
def opXStep (features : List Sample) (sk : ScalerKind)
    (acc : List (String × Transform) × List ScalerKind) (k : String) :
    Except PyError (List (String × Transform) × List ScalerKind) :=
  if k ≠ FeatureKeys.X_OP_FEAT then
    .ok (alSet acc.1 k .identity, acc.2)
  else
    match lookupAll features FeatureKeys.X_OP_FEAT with
    | .error e => .error e
    | .ok pool =>
      .ok (alSet acc.1 FeatureKeys.X_SUBGRAPH_FEAT (.scaler (fitScaler sk pool)),
        acc.2 ++ [sk])

/-- One iteration of the key loop of SubgraphDataset._init_normalizer_impl
(dataset.py lines 120 to 129): the subgraph-feature values of all samples
are flattened into one pool before fitting, and the transform maps the
fitted scaler over the elements of a list value. -/
def subgraphXStep (features : List Sample) (sk : ScalerKind)
    (acc : List (String × Transform) × List ScalerKind) (k : String) :
    Except PyError (List (String × Transform) × List ScalerKind) :=
  if k ≠ FeatureKeys.X_SUBGRAPH_FEAT then
    .ok (alSet acc.1 k .identity, acc.2)
  else
    match lookupAll features FeatureKeys.X_SUBGRAPH_FEAT with
    | .error e => .error e
    | .ok rows =>
      .ok (alSet acc.1 FeatureKeys.X_SUBGRAPH_FEAT
          (.mapScaler (fitScaler sk ((rows.map pyIter).flatten))),
        acc.2 ++ [sk])

/-- The two concrete dataset variants of the source. -/
inductive DatasetVariant where
  | op : DatasetVariant
  | subgraph : DatasetVariant
deriving DecidableEq

/-- OPDataset._init_normalizer_impl (dataset.py lines 137 to 156),
instrumented with the list of scaler fits performed. The features[0] and
labels[0] accesses raise IndexError on empty lists. Fits performed before
a raised error are not tracked past the error (no claim depends on them);
for the operator variant no fit can precede an error inside the X fold. -/
def opInitNormalizerImpl (features labels : List Sample) (sk : ScalerKind) :
    Except PyError Normalizer × List ScalerKind :=
  match features with
  | [] => (.error .indexError, [])
  | x0 :: _ =>
    match (x0.map Prod.fst).foldlM (opXStep features sk) ([], []) with
    | .error e => (.error e, [])
    | .ok (xd, f1) =>
      match get_y_scaler_dict labels sk with
      | .error e => (.error e, f1)
      | .ok (yd, f2) => (.ok ⟨xd, yd⟩, f1 ++ f2)

/-- SubgraphDataset._init_normalizer_impl (dataset.py lines 115 to 133),
instrumented like the operator variant. -/
def subgraphInitNormalizerImpl (features labels : List Sample) (sk : ScalerKind) :
    Except PyError Normalizer × List ScalerKind :=
  match features with
  | [] => (.error .indexError, [])
  | x0 :: _ =>
    match (x0.map Prod.fst).foldlM (subgraphXStep features sk) ([], []) with
    | .error e => (.error e, [])
    | .ok (xd, f1) =>
      match get_y_scaler_dict labels sk with
      | .error e => (.error e, f1)
      | .ok (yd, f2) => (.ok ⟨xd, yd⟩, f1 ++ f2)

/-- Dispatch of the abstract _init_normalizer_impl hook to the concrete
variant. -/
def initNormalizerImpl (variant : DatasetVariant) (features labels : List Sample)
    (sk : ScalerKind) : Except PyError Normalizer × List ScalerKind :=
  match variant with
  | .op => opInitNormalizerImpl features labels sk
  | .subgraph => subgraphInitNormalizerImpl features labels sk

/-! ## Dataset construction and access -/

/-- The runtime type of the normalization argument of MDataset.__init__:
a string, a callable, or any other object. -/
inductive Normalization where
  | str : String → Normalization
  | callable : (Sample → Sample → Sample × Sample) → Normalization
  | other : Normalization

/-- What the normalizer attribute can hold: a fitted Normalizer or a
custom callable supplied at construction. -/
inductive AttachedNormalizer where
  | fitted : Normalizer → AttachedNormalizer
  | custom : (Sample → Sample → Sample × Sample) → AttachedNormalizer

/-- The state of a constructed MDataset instance. -/
structure MDataset where
  graphs_cache_key : String
  features : List Sample
  labels : List Sample
  normalizer : Option AttachedNormalizer

/-- Error message of dataset.py line 29. -/
def invalidNormalizationMsg : String :=
  "Invalid normalization. Normalization must be a string or a callable object."

/-- Error message of dataset.py line 37. -/
def invalidStringNormalizationMsg : String :=
  "Invalid normalization. string normalization must be standard, MinMax."

/-- MDataset.__init__ together with _init_normalizer (dataset.py lines 19
to 37) for a concrete variant. The source calls _init_normalizer_impl but
discards its returned Normalizer (lines 25 and 31 to 35 never assign
self.normalizer), so after a successful string-mode construction the
normalizer attribute is still None; the model preserves this. The second
component records the scaler fits performed during construction. -/
def mkDataset (variant : DatasetVariant) (key : String) (features labels : List Sample)
    (norm : Normalization) : Except PyError MDataset × List ScalerKind :=
  match norm with
  | .callable f => (.ok ⟨key, features, labels, some (.custom f)⟩, [])
  | .other => (.error (.valueError invalidNormalizationMsg), [])
  | .str s =>
    if s = "Standard" then
      match initNormalizerImpl variant features labels .standard with
      | (.ok _discarded, fits) => (.ok ⟨key, features, labels, none⟩, fits)
      | (.error e, fits) => (.error e, fits)
    else if s = "MinMax" then
      match initNormalizerImpl variant features labels .minMax with
      | (.ok _discarded, fits) => (.ok ⟨key, features, labels, none⟩, fits)
      | (.error e, fits) => (.error e, fits)
    else
      (.error (.valueError invalidStringNormalizationMsg), [])

/-- MDataset.__len__ (dataset.py lines 96 to 97). -/
def MDataset.length (d : MDataset) : Nat := d.features.length

/-- Python list indexing with an integer index: nonnegative indices are
positions from the front, negative indices count from the end, anything
out of the range [-len, len) raises IndexError (none). -/
def pyListGet {α : Type} (l : List α) (i : Int) : Option α :=
  if 0 ≤ i then
    if h : i.toNat < l.length then some (l.get ⟨i.toNat, h⟩) else none
  else
    let j := (l.length : Int) + i
    if 0 ≤ j then
      if h : j.toNat < l.length then some (l.get ⟨j.toNat, h⟩) else none
    else none

/-- MDataset.__getitem__ (dataset.py lines 99 to 108): read the raw pair,
apply the normalizer when one is attached (the if self.normalizer check is
false for None), then merge the label dict into a copy of the feature dict
under the reserved key. -/
def MDataset.getItem (d : MDataset) (i : Int) : Option Sample :=
  match pyListGet d.features i, pyListGet d.labels i with
  | some x, some y =>
    match d.normalizer with
    | none => some (alSet x "label" (.dict y))
    | some (.custom f) =>
      match f x y with
      | (x', y') => some (alSet x' "label" (.dict y'))
    | some (.fitted n) => (n.apply x y).map (fun p => alSet p.1 "label" (.dict p.2))
  | _, _ => none

/-- MDataset.get_normalizer (dataset.py lines 110 to 111). -/
def MDataset.getNormalizer (d : MDataset) : Option AttachedNormalizer := d.normalizer

/-! ## Batch collation -/

/-- One value of the batch dict while it is being assembled: a plain list
of per-sample values, or (under the labels key) a dict of such lists. -/
inductive BatchVal where
  | leaf : List PyVal → BatchVal
  | nested : List (String × List PyVal) → BatchVal

/-- The batch dict being assembled by data_collator. -/
abbrev Batch := List (String × BatchVal)

/-- Distribution of one label sub-dict into the nested labels dict
(dataset.py lines 75 to 77): setdefault to an empty list, then append. -/
def addToLabels (ld : List (String × List PyVal)) (items : List (String × PyVal)) :
    List (String × List PyVal) :=
  items.foldl (fun acc p => alSet acc p.1 (((alLookup acc p.1).getD []) ++ [p.2])) ld

/-- Processing of one (key, value) entry of one sample by data_collator
(dataset.py lines 71 to 80). The none cases are the AttributeError paths
of the source: calling setdefault on a list stored under the labels key,
iterating .items() of a non-dict label value, or appending to the nested
labels dict through a non-label key. -/
def collStep (batch : Batch) (kv : String × PyVal) : Option Batch :=
  if kv.1 = "label" then
    match kv.2 with
    | .dict items =>
      match alLookup batch "labels" with
      | none => some (alSet batch "labels" (.nested (addToLabels [] items)))
      | some (.nested ld) => some (alSet batch "labels" (.nested (addToLabels ld items)))
      | some (.leaf _) => none
    | _ => none
  else
    match alLookup batch kv.1 with
    | none => some (alSet batch kv.1 (.leaf [kv.2]))
    | some (.leaf l) => some (alSet batch kv.1 (.leaf (l ++ [kv.2])))
    | some (.nested _) => none

/-- Processing of one whole sample dict by data_collator. -/
def addSample (batch : Batch) (s : Sample) : Option Batch :=
  s.foldlM collStep batch

/-- The accumulation loop of MDataset.data_collator (dataset.py lines 70
to 80), before the make_tensor pass. -/
def collectBatch (samples : List Sample) : Option Batch :=
  samples.foldlM addSample []

/-- A leaf container after the make_tensor pass: torch.tensor with dtype
float32 for tensor-bound keys, np.array otherwise. The element list is
kept symbolically. -/
inductive OutVal where
  | npArray : List PyVal → OutVal
  | floatTensor : List PyVal → OutVal

/-- A top-level batch value after the make_tensor pass. -/
inductive OutTop where
  | val : OutVal → OutTop
  | ndict : List (String × OutVal) → OutTop

/-- Python str.endswith, computed on the character lists of the two
strings. -/
def strEndsWith (s suffix : String) : Bool :=
  suffix.data.isSuffixOf s.data

/-- Conversion of one leaf container keyed by k (dataset.py lines 87 to
91): float tensor exactly when the key name ends with the tensor-bound
suffix. -/
def convertLeaf (k : String) (l : List PyVal) : OutVal :=
  if strEndsWith k FeatureKeys.FEAT_SUFFIX then .floatTensor l else .npArray l

/-- Conversion of one top-level batch value keyed by k: leaf containers
are converted directly, the nested labels dict is converted entry by
entry under its own sub-keys. -/
def convertTop (k : String) : BatchVal → OutTop
  | .leaf l => .val (convertLeaf k l)
  | .nested m => .ndict (m.map (fun q => (q.1, convertLeaf q.1 q.2)))

/-- The recursive make_tensor pass of data_collator (dataset.py lines 82
to 93): recurse into dict values, convert leaf containers per key. -/
def make_tensor (b : Batch) : List (String × OutTop) :=
  b.map (fun p => (p.1, convertTop p.1 p.2))

/-- MDataset.data_collator (dataset.py lines 68 to 94). -/
def data_collator (samples : List Sample) : Option (List (String × OutTop)) :=
  (collectBatch samples).map make_tensor

/-- Correctness of the suffix-driven conversion for one output entry:
float tensor exactly on suffix-carrying keys, recursively under the
nested labels dict. -/
def convOkVal (k : String) : OutVal → Prop
  | .floatTensor _ => strEndsWith k FeatureKeys.FEAT_SUFFIX = true
  | .npArray _ => strEndsWith k FeatureKeys.FEAT_SUFFIX = false

/-- Conversion correctness lifted to top-level batch values. -/
def convOk (k : String) : OutTop → Prop
  | .val v => convOkVal k v
  | .ndict m => ∀ q ∈ m, convOkVal q.1 q.2

/-- The key under which data_collator merges an incoming sample entry:
label entries land in the nested labels dict, everything else under its
own key. -/
def collKey (k : String) : String := if k = "label" then "labels" else k

/-- The label sub-dict of a sample, where the surrounding hypotheses
guarantee the reserved key holds a dict. -/
def labelItems (s : Sample) : List (String × PyVal) :=
  match alLookup s "label" with
  | some (.dict ls) => ls
  | _ => []

/-- The value of one label sub-key of a sample, defaulted like pyGetD. -/
def labelGetD (s : Sample) (vk : String) : PyVal :=
  (alLookup (labelItems s) vk).getD (.num 0)

/-! ## The dataset factory -/

/-- External Graph collaborator: only the feature-extraction accessors the
factory consumes are modelled, as black boxes returning feature and label
dictionaries. -/
structure Graph where
  node_features : List Sample × List Sample
  subgraph_features : Int → List Sample × List Sample
  full_graph_feature : Int → Sample × Sample

/-- Modelled from the spec: Graph.from_data(None, dummy=True) of
src/data/graph.py is not among the verified sources; the spec calls its
result a placeholder graph, modelled as a graph with empty extractions. -/
def dummyGraph : Graph :=
  ⟨([], []), fun _ => ([], []), fun _ => ([], [])⟩

/-- functools.lru_cache(maxsize=None) over one function: look the argument
tuple up in the table, computing and storing on a miss. The third
component records whether the wrapped function was invoked (false on a
cache hit: the previously computed result is returned without
recomputation). -/
def memoCall {α β : Type} [DecidableEq α] (f : α → β) (t : List (α × β)) (a : α) :
    β × List (α × β) × Bool :=
  match alLookup t a with
  | some b => (b, t, false)
  | none => (f a, alSet t a (f a), true)

/-- Argument tuple of the memoized per-kind construction routines:
graphs_cache_key, normalization string, and the extra keyword arguments
(modelled as the list of passed key/value pairs, which is exactly what
lru_cache keys on). -/
abbrev CreateArgs := String × String × List (String × Int)

/-- Process-wide mutable state of DatasetFactory: the graphs cache plus
the lru_cache tables of the memoized static methods. -/
structure FactoryState where
  graphs_cache : List (String × List Graph)
  load_memo : List ((String × String × Bool) × List Graph)
  op_memo : List (CreateArgs × Except PyError MDataset)
  grouping_memo : List (CreateArgs × Except PyError MDataset)
  subgraph_memo : List (CreateArgs × Except PyError MDataset)

/-- The empty factory state at process start. -/
def FactoryState.initial : FactoryState := ⟨[], [], [], [], []⟩

/-- Body of DatasetFactory._load_graphs (dataset.py lines 164 to 169)
before memoization. The second component records whether the call touches
the datasets directory path: the dummy branch returns 100 placeholder
graphs before the path is ever formed; the non-dummy branch forms the
path (real loading is external and yields no graphs in the source). -/
def loadGraphsBody (a : String × String × Bool) : List Graph × Bool :=
  if a.2.2 then (List.replicate 100 dummyGraph, false)
  else ([], true)

/-- The memoized DatasetFactory._load_graphs: lru_cache keyed on the
argument triple (environment, train_or_val, dummy). -/
def callLoadGraphs (st : FactoryState) (a : String × String × Bool) :
    List Graph × FactoryState × Bool :=
  let r := memoCall (fun x => (loadGraphsBody x).1) st.load_memo a
  (r.1, { st with load_memo := r.2.1 }, r.2.2)

/-- Body of the memoized DatasetFactory._create_op_dataset (dataset.py
lines 204 to 219) once the graphs are in hand: flatten the per-graph
operator features and labels and build an OPDataset. The
data_idx_to_graph bookkeeping of the source is dead local state and is
not modelled. -/
def createOpFromGraphs (graphs : List Graph) (a : CreateArgs) : Except PyError MDataset :=
  let op_X := (graphs.map (fun g => g.node_features.1)).flatten
  let op_Y := (graphs.map (fun g => g.node_features.2)).flatten
  (mkDataset .op a.1 op_X op_Y (.str a.2.1)).1

/-- DatasetFactory._create_op_dataset body including the graphs_cache
lookup of line 207, which raises KeyError when the key is absent. -/
def createOpDatasetBody (gcache : List (String × List Graph)) (a : CreateArgs) :
    Except PyError MDataset :=
  match alLookup gcache a.1 with
  | none => .error (.keyError a.1)
  | some gs => createOpFromGraphs gs a

/-- Body of DatasetFactory._create_graph_grouping_dataset (dataset.py
lines 223 to 237) once the graphs are in hand: one whole-graph sample per
graph, parameterized by subgraph_count (default 10). -/
def createGroupingFromGraphs (graphs : List Graph) (a : CreateArgs) : Except PyError MDataset :=
  let cnt := (alLookup a.2.2 "subgraph_count").getD 10
  let graph_X := graphs.map (fun g => (g.full_graph_feature cnt).1)
  let graph_Y := graphs.map (fun g => (g.full_graph_feature cnt).2)
  (mkDataset .subgraph a.1 graph_X graph_Y (.str a.2.1)).1

/-- DatasetFactory._create_graph_grouping_dataset body including the
graphs_cache lookup of line 227. -/
def createGroupingDatasetBody (gcache : List (String × List Graph)) (a : CreateArgs) :
    Except PyError MDataset :=
  match alLookup gcache a.1 with
  | none => .error (.keyError a.1)
  | some gs => createGroupingFromGraphs gs a

/-- Body of DatasetFactory._create_subgraph_dataset (dataset.py lines 241
to 260) once the graphs are in hand: flatten the per-graph subgraph
features and labels, parameterized by subgraph_node_size (default 10). -/
def createSubgraphFromGraphs (graphs : List Graph) (a : CreateArgs) : Except PyError MDataset :=
  let size := (alLookup a.2.2 "subgraph_node_size").getD 10
  let subgraph_X := (graphs.map (fun g => (g.subgraph_features size).1)).flatten
  let subgraph_Y := (graphs.map (fun g => (g.subgraph_features size).2)).flatten
  (mkDataset .subgraph a.1 subgraph_X subgraph_Y (.str a.2.1)).1

/-- DatasetFactory._create_subgraph_dataset body including the
graphs_cache lookup of line 245. -/
def createSubgraphDatasetBody (gcache : List (String × List Graph)) (a : CreateArgs) :
    Except PyError MDataset :=
  match alLookup gcache a.1 with
  | none => .error (.keyError a.1)
  | some gs => createSubgraphFromGraphs gs a

/-- The memoized DatasetFactory._create_op_dataset: lru_cache keyed on the
full argument tuple, reading the process-wide graphs cache at call time. -/
def callCreateOp (st : FactoryState) (a : CreateArgs) :
    Except PyError MDataset × FactoryState × Bool :=
  let r := memoCall (createOpDatasetBody st.graphs_cache) st.op_memo a
  (r.1, { st with op_memo := r.2.1 }, r.2.2)

/-- The memoized DatasetFactory._create_graph_grouping_dataset. -/
def callCreateGrouping (st : FactoryState) (a : CreateArgs) :
    Except PyError MDataset × FactoryState × Bool :=
  let r := memoCall (createGroupingDatasetBody st.graphs_cache) st.grouping_memo a
  (r.1, { st with grouping_memo := r.2.1 }, r.2.2)

/-- The memoized DatasetFactory._create_subgraph_dataset. -/
def callCreateSubgraph (st : FactoryState) (a : CreateArgs) :
    Except PyError MDataset × FactoryState × Bool :=
  let r := memoCall (createSubgraphDatasetBody st.graphs_cache) st.subgraph_memo a
  (r.1, { st with subgraph_memo := r.2.1 }, r.2.2)

/-- The requested dataset kind (objects.DatasetType). -/
inductive DatasetType where
  | OP : DatasetType
  | Grouping : DatasetType
  | Subgraph : DatasetType
deriving DecidableEq

/-- The dataset_creator dispatch dict of create_dataset (dataset.py lines
177 to 182). -/
def datasetCreator (dtype : DatasetType) :
    FactoryState → CreateArgs → Except PyError MDataset × FactoryState × Bool :=
  match dtype with
  | .OP => callCreateOp
  | .Grouping => callCreateGrouping
  | .Subgraph => callCreateSubgraph

/-- The per-kind construction body (creator without memoization), used to
state what the memoized creators compute. -/
def creatorBody (dtype : DatasetType) :
    List (String × List Graph) → CreateArgs → Except PyError MDataset :=
  match dtype with
  | .OP => createOpDatasetBody
  | .Grouping => createGroupingDatasetBody
  | .Subgraph => createSubgraphDatasetBody

/-- The per-kind construction body once the graphs-cache lookup has
succeeded. -/
def creatorFromGraphs (dtype : DatasetType) :
    List Graph → CreateArgs → Except PyError MDataset :=
  match dtype with
  | .OP => createOpFromGraphs
  | .Grouping => createGroupingFromGraphs
  | .Subgraph => createSubgraphFromGraphs

/-- DatasetFactory._graphs_cache_key (dataset.py lines 199 to 200); the
Python bool renders as True or False inside the f-string. -/
def graphsCacheKey (env split : String) (dummy : Bool) : String :=
  env ++ "|" ++ split ++ "|" ++ (if dummy then "True" else "False")

/-- The graph-loading phase of create_dataset (dataset.py lines 183 to
192): for each split, the loader is invoked (eagerly, as the default
argument of dict.get, though memoized), the cache is consulted, and the
result is stored back under the split cache key. -/
def populateGraphs (st : FactoryState) (env : String) (dummy : Bool) : FactoryState :=
  let tk := graphsCacheKey env "train" dummy
  let r1 := callLoadGraphs st (env, "train", dummy)
  let tg := (alLookup r1.2.1.graphs_cache tk).getD r1.1
  let st2 := { r1.2.1 with graphs_cache := alSet r1.2.1.graphs_cache tk tg }
  let vk := graphsCacheKey env "val" dummy
  let r2 := callLoadGraphs st2 (env, "val", dummy)
  let vg := (alLookup r2.2.1.graphs_cache vk).getD r2.1
  { r2.2.1 with graphs_cache := alSet r2.2.1.graphs_cache vk vg }

/-- DatasetFactory.create_dataset (dataset.py lines 172 to 196): populate
the graphs cache for both splits, then run the dispatched creator for the
train key and (when that does not raise) for the val key. -/
def create_dataset (st : FactoryState) (env norm : String) (dtype : DatasetType)
    (dummy : Bool) (extra : List (String × Int)) :
    Except PyError (MDataset × MDataset) × FactoryState :=
  let st4 := populateGraphs st env dummy
  let tk := graphsCacheKey env "train" dummy
  let vk := graphsCacheKey env "val" dummy
  let r1 := datasetCreator dtype st4 (tk, norm, extra)
  match r1.1 with
  | .error e => (.error e, r1.2.1)
  | .ok t =>
    let r2 := datasetCreator dtype r1.2.1 (vk, norm, extra)
    match r2.1 with
    | .error e => (.error e, r2.2.1)
    | .ok v => (.ok (t, v), r2.2.1)

/-! ## Shape predicates and invariants for the collator proof -/

/-- The leaf list currently stored in the batch under key q, empty when
the key is absent (the setdefault view of dataset.py line 79). -/
def oldLeaf (b : Batch) (q : String) : List PyVal :=
  match alLookup b q with
  | some (.leaf l) => l
  | _ => []

/-- The nested labels dict currently stored in the batch, empty when
absent (the setdefault view of dataset.py line 74). -/
def oldNested (b : Batch) : List (String × List PyVal) :=
  match alLookup b "labels" with
  | some (.nested m) => m
  | _ => []

/-- Shape invariant of the batch dict maintained by data_collator: every
key other than the labels key holds a plain list, and the labels key (when
present) holds the nested dict. -/
def goodShape (b : Batch) : Prop :=
  (∀ q v, q ≠ "labels" → alLookup b q = some v → ∃ l, v = BatchVal.leaf l)
  ∧ (∀ v, alLookup b "labels" = some v → ∃ m, v = BatchVal.nested m)

/-- Well-formedness of one sample presented to the collator, relative to a
shared top-level key set K and shared label sub-key set LK: its keys are a
permutation of K and its reserved label entry is a dict whose keys are a
permutation of LK. -/
def sampleOk (K LK : List String) (s : Sample) : Prop :=
  (s.map Prod.fst).Perm K
  ∧ ∃ ls, alLookup s "label" = some (.dict ls) ∧ (ls.map Prod.fst).Perm LK

/-- Invariant relating the batch dict to the list of samples already
collated. -/
def collectInv (K LK : List String) (acc : List Sample) (b : Batch) : Prop :=
  goodShape b
  ∧ (acc = [] → b = [])
  ∧ (acc ≠ [] →
      ((b.map Prod.fst).Perm (K.map collKey)
        ∧ (∀ q ∈ K, q ≠ "label" →
            alLookup b q = some (.leaf (acc.map (fun s => pyGetD s q))))
        ∧ (∃ m, alLookup b "labels" = some (.nested m)
            ∧ (m.map Prod.fst).Perm LK
            ∧ ∀ vk ∈ LK, alLookup m vk = some (acc.map (fun s => labelGetD s vk)))))

/-! ## Concrete data for counterexamples and witnesses -/

/-- Feature dict of the single-sample operator dataset exercising the
normalizer-discard path. -/
def c1x : Sample := [("x_op_feat", PyVal.list [PyVal.num 1, PyVal.num 2])]

/-- Label dict of that sample. -/
def c1y : Sample := [("graph_dur", PyVal.num 3)]

/-- The dataset state produced by the string-mode construction over c1x
and c1y. -/
def c1d : MDataset := ⟨"k", [c1x], [c1y], none⟩

/-- Feature dict with the operator-feature key, for the misdirected
scaler assignment of the operator variant. -/
def c3x : Sample := [("x_op_feat", PyVal.list [PyVal.num 1])]

/-- Label dict with only a passthrough key. -/
def c3y : Sample := [("g", PyVal.num 2)]

/-- The Normalizer actually built (and then discarded) by
OPDataset._init_normalizer_impl over c3x and c3y: the fitted scaler sits
under the subgraph-feature key. -/
def c3normalizer : Normalizer :=
  ⟨[(FeatureKeys.X_SUBGRAPH_FEAT, .scaler ⟨.standard, [PyVal.list [PyVal.num 1]]⟩)],
   [("g", Transform.identity)]⟩

/-- Eight identical samples for the length-8 indexing scenario. -/
def d8s : List Sample := List.replicate 8 [("v_feat", PyVal.num 1)]

/-- A dataset of 8 samples (an operator dataset built with a string mode
has normalizer none, as proved for claim C1). -/
def d8 : MDataset := ⟨"k8", d8s, d8s, none⟩

/-- Feature dict used by the mode-string witness. -/
def c2x0 : Sample := [("x_op_feat", PyVal.list [PyVal.num 5])]

/-- Label dict used by the mode-string witness. -/
def c2y0 : Sample := [("y_subgraph_feat", PyVal.list [PyVal.num 6])]

/-- Batch of one sample whose top-level keys include the output reserved
key labels: collation crashes on it. -/
def ce6a : List Sample :=
  [[("labels", PyVal.num 5), ("label", PyVal.dict [("y_feat", PyVal.num 1)])]]

/-- Batch of two samples sharing the top-level key set but with disjoint
label sub-keys: every label container ends up with one entry, not two. -/
def ce6b : List Sample :=
  [[("label", PyVal.dict [("a_feat", PyVal.num 1)])],
   [("label", PyVal.dict [("b_feat", PyVal.num 2)])]]

/-- Two well-formed samples for the collator witness. -/
def w6 : List Sample :=
  [[("a_feat", PyVal.num 1), ("id", PyVal.str "g1"),
    ("label", PyVal.dict [("y_feat", PyVal.num 10)])],
   [("a_feat", PyVal.num 2), ("id", PyVal.str "g2"),
    ("label", PyVal.dict [("y_feat", PyVal.num 20)])]]

/-- One sample exercising both conversion outcomes for the make_tensor
witness. -/
def w7samples : List Sample :=
  [[("x_feat", PyVal.num 1), ("id", PyVal.str "g"),
    ("label", PyVal.dict [("y_feat", PyVal.num 2)])]]

/-- The collated batch of w7samples. -/
def w7out : List (String × OutTop) :=
  [("x_feat", .val (.floatTensor [PyVal.num 1])),
   ("id", .val (.npArray [PyVal.str "g"])),
   ("labels", .ndict [("y_feat", .floatTensor [PyVal.num 2])])]

/-! ## Helper lemmas -/

@[simp]
theorem alLookup_nil {κ α : Type} [DecidableEq κ] (q : κ) :
    alLookup ([] : List (κ × α)) q = none := rfl

@[simp]
theorem alLookup_cons {κ α : Type} [DecidableEq κ] (k : κ) (v : α) (rest : List (κ × α)) (q : κ) :
    alLookup ((k, v) :: rest) q = if k = q then some v else alLookup rest q := rfl

@[simp]
theorem alLookup_alSet_self {κ α : Type} [DecidableEq κ] (l : List (κ × α)) (q : κ) (v : α) :
    alLookup (alSet l q v) q = some v := by
  induction l with
  | nil => simp [alSet]
  | cons p rest ih =>
    obtain ⟨k, w⟩ := p
    by_cases h : k = q <;> simp [alSet, h, ih]

theorem alLookup_alSet_ne {κ α : Type} [DecidableEq κ] (l : List (κ × α)) (q q' : κ) (v : α)
    (h : q' ≠ q) : alLookup (alSet l q v) q' = alLookup l q' := by
  have hne : ¬ q = q' := fun hh => h hh.symm
  induction l with
  | nil => simp [alSet, hne]
  | cons p rest ih =>
    obtain ⟨k, w⟩ := p
    by_cases hk : k = q
    · subst hk
      simp [alSet, hne]
    · simp only [alSet, if_neg hk, alLookup_cons]
      by_cases hk' : k = q' <;> simp [hk', ih]

theorem alSet_keys {κ α : Type} [DecidableEq κ] (l : List (κ × α)) (q : κ) (v : α) :
    (alSet l q v).map Prod.fst =
      if q ∈ l.map Prod.fst then l.map Prod.fst else l.map Prod.fst ++ [q] := by
  induction l with
  | nil => simp [alSet]
  | cons p rest ih =>
    obtain ⟨k, w⟩ := p
    by_cases h : k = q
    · subst h; simp [alSet]
    · have h' : ¬ q = k := fun hh => h hh.symm
      by_cases hm : q ∈ rest.map Prod.fst <;> simp [alSet, h, h', hm, ih]

theorem alLookup_isSome_of_mem_keys {κ α : Type} [DecidableEq κ] (l : List (κ × α)) (q : κ)
    (h : q ∈ l.map Prod.fst) : (alLookup l q).isSome := by
  induction l with
  | nil => simp at h
  | cons p rest ih =>
    obtain ⟨k, w⟩ := p
    by_cases hk : k = q
    · simp [hk]
    · have : q ∈ rest.map Prod.fst := by
        simp only [List.map_cons, List.mem_cons] at h
        rcases h with h | h
        · exact absurd h.symm hk
        · exact h
      simp [hk, ih this]

theorem alLookup_eq_none_of_not_mem_keys {κ α : Type} [DecidableEq κ] (l : List (κ × α)) (q : κ)
    (h : q ∉ l.map Prod.fst) : alLookup l q = none := by
  induction l with
  | nil => rfl
  | cons p rest ih =>
    obtain ⟨k, w⟩ := p
    simp only [List.map_cons, List.mem_cons] at h
    push_neg at h
    have hne : ¬ k = q := fun hh => h.1 hh.symm
    simp [hne, ih h.2]

theorem alLookup_mem_keys_of_isSome {κ α : Type} [DecidableEq κ] (l : List (κ × α)) (q : κ)
    (h : (alLookup l q).isSome) : q ∈ l.map Prod.fst := by
  by_contra hq
  rw [alLookup_eq_none_of_not_mem_keys l q hq] at h
  simp at h

theorem alLookup_of_mem_of_nodup {κ α : Type} [DecidableEq κ] (l : List (κ × α)) (k : κ) (v : α)
    (hmem : (k, v) ∈ l) (hnd : (l.map Prod.fst).Nodup) : alLookup l k = some v := by
  induction l with
  | nil => simp at hmem
  | cons p rest ih =>
    obtain ⟨k', w⟩ := p
    simp only [List.mem_cons] at hmem
    simp only [List.map_cons, List.nodup_cons] at hnd
    rcases hmem with h | h
    · cases h
      simp
    · have hk' : ¬ k' = k := by
        intro hh
        subst hh
        exact hnd.1 (List.mem_map_of_mem Prod.fst h)
      simp [hk', ih h hnd.2]

@[simp]
theorem keysAfter_nil (ks : List String) : keysAfter ks [] = ks := rfl

@[simp]
theorem keysAfter_cons (ks : List String) (q : String) (qs : List String) :
    keysAfter ks (q :: qs) = keysAfter (if q ∈ ks then ks else ks ++ [q]) qs := rfl

theorem keysAfter_eq_self (ks : List String) (qs : List String)
    (h : ∀ q ∈ qs, q ∈ ks) : keysAfter ks qs = ks := by
  induction qs with
  | nil => rfl
  | cons q rest ih =>
    simp only [keysAfter_cons, if_pos (h q (List.mem_cons_self q rest))]
    exact ih (fun x hx => h x (List.mem_cons_of_mem q hx))

theorem keysAfter_eq_append (ks : List String) (qs : List String)
    (h : (ks ++ qs).Nodup) : keysAfter ks qs = ks ++ qs := by
  induction qs generalizing ks with
  | nil => simp
  | cons q rest ih =>
    have hq : q ∉ ks := by
      intro hmem
      have := List.disjoint_of_nodup_append h
      exact this hmem (List.mem_cons_self q rest)
    simp only [keysAfter_cons, if_neg hq]
    have h' : ((ks ++ [q]) ++ rest).Nodup := by
      simpa [List.append_assoc] using h
    simpa [List.append_assoc] using ih (ks ++ [q]) h'

theorem keysAfter_perm (ks : List String) (qs : List String)
    (hperm : ∀ q ∈ qs, q ∈ ks) : (keysAfter ks qs).Perm ks := by
  rw [keysAfter_eq_self ks qs hperm]

theorem mem_of_alLookup_eq_some {κ α : Type} [DecidableEq κ] (l : List (κ × α)) (q : κ) (v : α)
    (h : alLookup l q = some v) : (q, v) ∈ l := by
  induction l with
  | nil => simp at h
  | cons p rest ih =>
    obtain ⟨k, w⟩ := p
    by_cases hk : k = q
    · subst hk
      rw [alLookup_cons, if_pos rfl] at h
      injection h with h'
      subst h'
      exact List.mem_cons_self _ _
    · simp only [alLookup_cons, if_neg hk] at h
      exact List.mem_cons_of_mem _ (ih h)

theorem memoCall_second_hit {α β : Type} [DecidableEq α] (f g : α → β) (t : List (α × β)) (a : α) :
    memoCall g (memoCall f t a).2.1 a
      = ((memoCall f t a).1, (memoCall f t a).2.1, false) := by
  unfold memoCall
  cases h : alLookup t a with
  | some b => simp [h]
  | none => simp [h, alLookup_alSet_self]

theorem pyListGet_isSome {α : Type} (l : List α) (i : Int) :
    (pyListGet l i).isSome = true ↔ (-(l.length : Int) ≤ i ∧ i < (l.length : Int)) := by
  unfold pyListGet
  by_cases h1 : 0 ≤ i
  · rw [if_pos h1]
    by_cases h2 : i.toNat < l.length
    · rw [dif_pos h2]; simp; omega
    · rw [dif_neg h2]; simp; omega
  · rw [if_neg h1]
    by_cases h3 : 0 ≤ (l.length : Int) + i
    · rw [if_pos h3]
      by_cases h4 : ((l.length : Int) + i).toNat < l.length
      · rw [dif_pos h4]; simp; omega
      · rw [dif_neg h4]; simp; omega
    · rw [if_neg h3]; simp; omega

theorem getItem_isSome_eq (d : MDataset) (i : Int)
    (hlen : d.labels.length = d.features.length)
    (hnorm : d.normalizer = none ∨ ∃ f, d.normalizer = some (.custom f)) :
    (d.getItem i).isSome = (pyListGet d.features i).isSome := by
  unfold MDataset.getItem
  cases hx : pyListGet d.features i with
  | none => simp
  | some x =>
    cases hy : pyListGet d.labels i with
    | none =>
      exfalso
      have h1 := (pyListGet_isSome d.features i).mp (by rw [hx]; rfl)
      have h2 := pyListGet_isSome d.labels i
      rw [hy, hlen] at h2
      simp only [Option.isSome_none, Bool.false_eq_true, false_iff] at h2
      exact h2 h1
    | some y =>
      rcases hnorm with h | ⟨f, h⟩ <;> rw [h]
      · simp
      · rcases hp : f x y with ⟨a, b⟩
        simp

theorem datasetCreator_preserves_graphs_cache (dtype : DatasetType) (st : FactoryState)
    (a : CreateArgs) : ((datasetCreator dtype st a).2.1).graphs_cache = st.graphs_cache := by
  cases dtype <;> rfl

/-! ## Claim theorems -/

/-- Claim C9: for every normalization argument that is neither a string
nor a callable, dataset construction fails with the invalid-argument
ValueError, with no scaler fit performed and no dataset returned. -/
theorem invalid_normalization_rejected (variant : DatasetVariant) (key : String)
    (features labels : List Sample) :
    mkDataset variant key features labels .other
      = (.error (.valueError invalidNormalizationMsg), []) := rfl

/-- Claim C1 (code bug): constructing an operator dataset with the string
mode Standard performs the scaler fit and builds a Normalizer (with the
fitted scaler), but the construction discards it: the resulting dataset
has normalizer none, and get(0) returns the raw, un-normalized feature
dict merged with the label dict under the reserved key. -/
theorem getitem_skips_normalizer_on_string_mode :
    (mkDataset .op "k" [c1x] [c1y] (.str "Standard")).1 = .ok c1d
    ∧ (mkDataset .op "k" [c1x] [c1y] (.str "Standard")).2 = [.standard]
    ∧ c1d.normalizer = none
    ∧ c1d.getItem 0 = some (c1x ++ [("label", PyVal.dict c1y)]) :=
  ⟨rfl, rfl, rfl, rfl⟩

/-- Claim C3 (code bug): the operator variant builds its X mapping with
the fitted operator-feature scaler stored under the subgraph-feature key
(dataset.py line 152), so the operator-feature key present in the first
feature dict has no entry in the resulting mapping. -/
theorem op_variant_scaler_under_wrong_key :
    (opInitNormalizerImpl [c3x] [c3y] .standard).1 = .ok c3normalizer
    ∧ FeatureKeys.X_OP_FEAT ∈ c3x.map Prod.fst
    ∧ alLookup c3normalizer.x_scaler_dict FeatureKeys.X_OP_FEAT = none
    ∧ (alLookup c3normalizer.x_scaler_dict FeatureKeys.X_SUBGRAPH_FEAT).isSome = true :=
  ⟨rfl, by decide, rfl, rfl⟩

/-- Claim C4 (counterexample): on a dataset of 8 samples, get(-1) is an
index outside [0, 8) yet succeeds (Python negative indexing), refuting the
claim that every index outside [0, n) fails. -/
theorem negative_index_get_succeeds :
    (d8.getItem (-1)).isSome = true ∧ ((-1 : Int) < 0 ∨ 8 ≤ (-1 : Int)) :=
  ⟨rfl, by decide⟩

/-- Claim C4 (amended): for a dataset with equally long feature and label
lists and no fitted normalizer attached, get(i) succeeds exactly for
integer indices in [-n, n) (negative indices address from the end, with no
clamping), and fails outside that range. -/
theorem getitem_index_range (d : MDataset) (i : Int)
    (hlen : d.labels.length = d.features.length)
    (hnorm : d.normalizer = none ∨ ∃ f, d.normalizer = some (.custom f)) :
    ((d.getItem i).isSome = true)
      ↔ (-(d.features.length : Int) ≤ i ∧ i < (d.features.length : Int)) := by
  rw [getItem_isSome_eq d i hlen hnorm]
  exact pyListGet_isSome d.features i

/-- Claim C4 (witness): the 8-sample scenario. The dataset has length 8,
get(0) and get(7) succeed, and get(8) fails with the out-of-range error. -/
theorem getitem_index_range_witness :
    d8.length = 8
    ∧ (d8.getItem 0).isSome = true
    ∧ (d8.getItem 7).isSome = true
    ∧ (d8.getItem 8).isSome = false := by
  refine ⟨rfl, rfl, rfl, ?_⟩
  have h := getitem_index_range d8 8 rfl (Or.inl rfl)
  cases hb : (d8.getItem 8).isSome with
  | false => rfl
  | true =>
    exfalso
    have hc := h.mp hb
    have hlen : d8.features.length = 8 := by
      simp [d8, d8s]
    rw [hlen] at hc
    omega

/-- Claim C5: the memoized per-kind construction routines return, on a
second call with an identical argument tuple, exactly the previously
built dataset and state, with the recomputation flag false (no feature
re-extraction, no scaler re-fitting). -/
theorem creator_memoization :
    (∀ (st : FactoryState) (a : CreateArgs),
        callCreateOp (callCreateOp st a).2.1 a
          = ((callCreateOp st a).1, (callCreateOp st a).2.1, false))
    ∧ (∀ (st : FactoryState) (a : CreateArgs),
        callCreateSubgraph (callCreateSubgraph st a).2.1 a
          = ((callCreateSubgraph st a).1, (callCreateSubgraph st a).2.1, false)) := by
  constructor
  · intro st a
    simp only [callCreateOp]
    rw [memoCall_second_hit]
  · intro st a
    simp only [callCreateSubgraph]
    rw [memoCall_second_hit]

/-- Claim C8: the dummy branch of the graph loader returns exactly 100
placeholder graphs without touching the datasets path; the memoized
loader returns, on a second call with an identical triple, the previously
computed list without recomputation; and from any state whose memo table
is consistent with the loader body, a dummy call returns a list of
length 100. -/
theorem load_graphs_spec :
    (∀ env split : String,
        (loadGraphsBody (env, split, true)).1.length = 100
        ∧ (loadGraphsBody (env, split, true)).2 = false)
    ∧ (∀ (st : FactoryState) (a : String × String × Bool),
        callLoadGraphs (callLoadGraphs st a).2.1 a
          = ((callLoadGraphs st a).1, (callLoadGraphs st a).2.1, false))
    ∧ (∀ (st : FactoryState) (env split : String),
        (∀ e ∈ st.load_memo, e.2 = (loadGraphsBody e.1).1) →
        (callLoadGraphs st (env, split, true)).1.length = 100) := by
  refine ⟨fun env split => ⟨by simp [loadGraphsBody], by simp [loadGraphsBody]⟩, ?_, ?_⟩
  · intro st a
    simp only [callLoadGraphs]
    rw [memoCall_second_hit]
  · intro st env split hmemo
    simp only [callLoadGraphs, memoCall]
    cases h : alLookup st.load_memo (env, split, true) with
    | none => simp [loadGraphsBody]
    | some gs =>
      have hm := mem_of_alLookup_eq_some _ _ _ h
      have := hmemo _ hm
      simp only at this
      subst this
      simp [loadGraphsBody]

theorem alLookup_alSet_alSet_isSome {κ α : Type} [DecidableEq κ] (l : List (κ × α))
    (k1 k2 q : κ) (v1 v2 : α) (h : q = k1 ∨ q = k2) :
    ∃ w, alLookup (alSet (alSet l k1 v1) k2 v2) q = some w := by
  by_cases h2 : q = k2
  · subst h2
    exact ⟨v2, alLookup_alSet_self _ _ _⟩
  · rcases h with h1 | h1
    · subst h1
      rw [alLookup_alSet_ne _ _ _ _ h2]
      exact ⟨v1, alLookup_alSet_self _ _ _⟩
    · exact absurd h1 h2

/-- Claim C10: after the graph-loading phase of create_dataset, the
process-wide graphs cache holds entries under both the train and the val
cache keys, the per-kind construction bodies run against that cache reduce
to their from-graphs form for those keys (the graphs_cache lookup cannot
raise), and the creator calls leave the graphs cache unchanged, so the
state returned by create_dataset still holds both entries. -/
theorem graphs_cache_populated (st : FactoryState) (env : String) (dummy : Bool) :
    (∃ g, alLookup (populateGraphs st env dummy).graphs_cache
            (graphsCacheKey env "train" dummy) = some g
       ∧ ∀ (dtype : DatasetType) (norm : String) (extra : List (String × Int)),
           creatorBody dtype (populateGraphs st env dummy).graphs_cache
               (graphsCacheKey env "train" dummy, norm, extra)
             = creatorFromGraphs dtype g (graphsCacheKey env "train" dummy, norm, extra))
    ∧ (∃ g, alLookup (populateGraphs st env dummy).graphs_cache
            (graphsCacheKey env "val" dummy) = some g
       ∧ ∀ (dtype : DatasetType) (norm : String) (extra : List (String × Int)),
           creatorBody dtype (populateGraphs st env dummy).graphs_cache
               (graphsCacheKey env "val" dummy, norm, extra)
             = creatorFromGraphs dtype g (graphsCacheKey env "val" dummy, norm, extra))
    ∧ (∀ (norm : String) (dtype : DatasetType) (extra : List (String × Int)),
        (create_dataset st env norm dtype dummy extra).2.graphs_cache
          = (populateGraphs st env dummy).graphs_cache) := by
  obtain ⟨gt, hgt⟩ : ∃ g, alLookup (populateGraphs st env dummy).graphs_cache
      (graphsCacheKey env "train" dummy) = some g := by
    simp only [populateGraphs]
    exact alLookup_alSet_alSet_isSome _ _ _ _ _ _ (Or.inl rfl)
  obtain ⟨gv, hgv⟩ : ∃ g, alLookup (populateGraphs st env dummy).graphs_cache
      (graphsCacheKey env "val" dummy) = some g := by
    simp only [populateGraphs]
    exact alLookup_alSet_alSet_isSome _ _ _ _ _ _ (Or.inr rfl)
  refine ⟨⟨gt, hgt, ?_⟩, ⟨gv, hgv, ?_⟩, ?_⟩
  · intro dtype norm extra
    cases dtype <;>
      simp [creatorBody, creatorFromGraphs, createOpDatasetBody,
        createGroupingDatasetBody, createSubgraphDatasetBody, hgt]
  · intro dtype norm extra
    cases dtype <;>
      simp [creatorBody, creatorFromGraphs, createOpDatasetBody,
        createGroupingDatasetBody, createSubgraphDatasetBody, hgv]
  · intro norm dtype extra
    unfold create_dataset
    dsimp only
    split
    · rw [datasetCreator_preserves_graphs_cache]
    · split <;>
        rw [datasetCreator_preserves_graphs_cache, datasetCreator_preserves_graphs_cache]

/-- Claim C8 (witness): a dummy load from the initial factory state
returns 100 placeholder graphs. -/
theorem load_graphs_spec_witness :
    (callLoadGraphs FactoryState.initial ("env1", "train", true)).1.length = 100 :=
  load_graphs_spec.2.2 FactoryState.initial "env1" "train"
    (fun e he => absurd he (List.not_mem_nil e))

theorem except_ok_bind {ε α β : Type} (a : α) (f : α → Except ε β) :
    (Except.ok a : Except ε α) >>= f = f a := rfl

theorem lookupAll_ok (samples : List Sample) (key : String)
    (h : ∀ s ∈ samples, (alLookup s key).isSome) :
    ∃ vs, lookupAll samples key = .ok vs := by
  induction samples with
  | nil => exact ⟨[], rfl⟩
  | cons s rest ih =>
    obtain ⟨v, hv⟩ := Option.isSome_iff_exists.mp (h s (List.mem_cons_self s rest))
    obtain ⟨vs, hvs⟩ := ih (fun x hx => h x (List.mem_cons_of_mem s hx))
    exact ⟨v :: vs, by simp [lookupAll, hv, hvs]⟩

theorem fold_steps_ok
    (step : (List (String × Transform) × List ScalerKind) → String →
      Except PyError (List (String × Transform) × List ScalerKind))
    (sk : ScalerKind) (ks : List String)
    (hstep : ∀ acc, ∀ k ∈ ks, ∃ d2 ext, step acc k = .ok (d2, acc.2 ++ ext)
      ∧ ∀ s ∈ ext, s = sk) :
    ∀ acc, ∃ d fits, ks.foldlM step acc = .ok (d, acc.2 ++ fits) ∧ ∀ s ∈ fits, s = sk := by
  induction ks with
  | nil =>
    intro acc
    exact ⟨acc.1, [], by rw [List.append_nil]; rfl, by simp⟩
  | cons k rest ih =>
    intro acc
    obtain ⟨d2, ext, hs, hallext⟩ := hstep acc k (List.mem_cons_self k rest)
    obtain ⟨d, fits, hf, hallf⟩ :=
      ih (fun acc' k' hk' => hstep acc' k' (List.mem_cons_of_mem k hk')) (d2, acc.2 ++ ext)
    refine ⟨d, ext ++ fits, ?_, ?_⟩
    · rw [List.foldlM_cons, hs, except_ok_bind, hf, List.append_assoc]
    · intro s hsm
      rcases List.mem_append.mp hsm with h | h
      · exact hallext s h
      · exact hallf s h

theorem yScalerStep_ok (labels : List Sample) (sk : ScalerKind) (k : String)
    (hik : (k = FeatureKeys.Y_OP_FEAT ∨ k = FeatureKeys.Y_SUBGRAPH_FEAT) →
      ∀ y ∈ labels, (alLookup y k).isSome)
    (acc : List (String × Transform) × List ScalerKind) :
    ∃ d2 ext, yScalerStep labels sk acc k = .ok (d2, acc.2 ++ ext) ∧ ∀ s ∈ ext, s = sk := by
  by_cases h1 : k = FeatureKeys.Y_SUBGRAPH_FEAT
  · obtain ⟨pool, hpool⟩ := lookupAll_ok labels k (hik (Or.inr h1))
    subst h1
    refine ⟨alSet acc.1 FeatureKeys.Y_SUBGRAPH_FEAT (.scaler (fitScaler sk pool)),
      [sk], ?_, by simp⟩
    unfold yScalerStep
    rw [if_neg (fun h => h.2 rfl), if_pos rfl, hpool]
  · by_cases h2 : k = FeatureKeys.Y_OP_FEAT
    · obtain ⟨rows, hrows⟩ := lookupAll_ok labels k (hik (Or.inl h2))
      subst h2
      refine ⟨alSet acc.1 FeatureKeys.Y_OP_FEAT
        (.mapScaler (fitScaler sk ((rows.map pyIter).flatten))), [sk], ?_, by simp⟩
      unfold yScalerStep
      rw [if_neg (fun h => h.1 rfl), if_neg (by decide), hrows]
    · refine ⟨alSet acc.1 k .identity, [], ?_, by simp⟩
      unfold yScalerStep
      rw [if_pos ⟨h2, h1⟩]
      simp

theorem opXStep_ok (features : List Sample) (sk : ScalerKind) (k : String)
    (hik : k = FeatureKeys.X_OP_FEAT →
      ∀ x ∈ features, (alLookup x FeatureKeys.X_OP_FEAT).isSome)
    (acc : List (String × Transform) × List ScalerKind) :
    ∃ d2 ext, opXStep features sk acc k = .ok (d2, acc.2 ++ ext) ∧ ∀ s ∈ ext, s = sk := by
  by_cases h : k = FeatureKeys.X_OP_FEAT
  · obtain ⟨pool, hpool⟩ := lookupAll_ok features FeatureKeys.X_OP_FEAT (hik h)
    subst h
    refine ⟨alSet acc.1 FeatureKeys.X_SUBGRAPH_FEAT (.scaler (fitScaler sk pool)),
      [sk], ?_, by simp⟩
    unfold opXStep
    rw [if_neg (fun hn => hn rfl), hpool]
  · refine ⟨alSet acc.1 k .identity, [], ?_, by simp⟩
    unfold opXStep
    rw [if_pos h]
    simp

theorem subgraphXStep_ok (features : List Sample) (sk : ScalerKind) (k : String)
    (hik : k = FeatureKeys.X_SUBGRAPH_FEAT →
      ∀ x ∈ features, (alLookup x FeatureKeys.X_SUBGRAPH_FEAT).isSome)
    (acc : List (String × Transform) × List ScalerKind) :
    ∃ d2 ext, subgraphXStep features sk acc k = .ok (d2, acc.2 ++ ext)
      ∧ ∀ s ∈ ext, s = sk := by
  by_cases h : k = FeatureKeys.X_SUBGRAPH_FEAT
  · obtain ⟨rows, hrows⟩ := lookupAll_ok features FeatureKeys.X_SUBGRAPH_FEAT (hik h)
    subst h
    refine ⟨alSet acc.1 FeatureKeys.X_SUBGRAPH_FEAT
      (.mapScaler (fitScaler sk ((rows.map pyIter).flatten))), [sk], ?_, by simp⟩
    unfold subgraphXStep
    rw [if_neg (fun hn => hn rfl), hrows]
  · refine ⟨alSet acc.1 k .identity, [], ?_, by simp⟩
    unfold subgraphXStep
    rw [if_pos h]
    simp

theorem get_y_scaler_dict_ok (y0 : Sample) (ys : List Sample) (sk : ScalerKind)
    (hy : ∀ y ∈ y0 :: ys, y.map Prod.fst = y0.map Prod.fst) :
    ∃ d fits, get_y_scaler_dict (y0 :: ys) sk = .ok (d, fits) ∧ ∀ s ∈ fits, s = sk := by
  have hstep : ∀ acc, ∀ k ∈ y0.map Prod.fst,
      ∃ d2 ext, yScalerStep (y0 :: ys) sk acc k = .ok (d2, acc.2 ++ ext)
        ∧ ∀ s ∈ ext, s = sk := by
    intro acc k hkmem
    apply yScalerStep_ok
    intro _ y hymem
    apply alLookup_isSome_of_mem_keys
    rw [hy y hymem]
    exact hkmem
  obtain ⟨d, fits, hf, hall⟩ :=
    fold_steps_ok (yScalerStep (y0 :: ys) sk) sk (y0.map Prod.fst) hstep ([], [])
  exact ⟨d, fits, by simpa [get_y_scaler_dict] using hf, hall⟩

theorem initNormalizerImpl_ok (variant : DatasetVariant) (sk : ScalerKind)
    (x0 y0 : Sample) (xs ys : List Sample)
    (hx : ∀ x ∈ x0 :: xs, x.map Prod.fst = x0.map Prod.fst)
    (hy : ∀ y ∈ y0 :: ys, y.map Prod.fst = y0.map Prod.fst) :
    ∃ n fits, initNormalizerImpl variant (x0 :: xs) (y0 :: ys) sk = (.ok n, fits)
      ∧ ∀ s ∈ fits, s = sk := by
  obtain ⟨yd, f2, hyd, hall2⟩ := get_y_scaler_dict_ok y0 ys sk hy
  cases variant with
  | op =>
    have hstep : ∀ acc, ∀ k ∈ x0.map Prod.fst,
        ∃ d2 ext, opXStep (x0 :: xs) sk acc k = .ok (d2, acc.2 ++ ext)
          ∧ ∀ s ∈ ext, s = sk := by
      intro acc k hkmem
      apply opXStep_ok
      intro hkX x hxmem
      apply alLookup_isSome_of_mem_keys
      rw [hx x hxmem, ← hkX]
      exact hkmem
    obtain ⟨xd, f1, hf1, hall1⟩ :=
      fold_steps_ok (opXStep (x0 :: xs) sk) sk (x0.map Prod.fst) hstep ([], [])
    simp only [List.nil_append] at hf1
    refine ⟨⟨xd, yd⟩, f1 ++ f2, ?_, ?_⟩
    · simp only [initNormalizerImpl, opInitNormalizerImpl]
      rw [hf1, hyd]
    · intro s hs
      rcases List.mem_append.mp hs with h | h
      · exact hall1 s h
      · exact hall2 s h
  | subgraph =>
    have hstep : ∀ acc, ∀ k ∈ x0.map Prod.fst,
        ∃ d2 ext, subgraphXStep (x0 :: xs) sk acc k = .ok (d2, acc.2 ++ ext)
          ∧ ∀ s ∈ ext, s = sk := by
      intro acc k hkmem
      apply subgraphXStep_ok
      intro hkX x hxmem
      apply alLookup_isSome_of_mem_keys
      rw [hx x hxmem, ← hkX]
      exact hkmem
    obtain ⟨xd, f1, hf1, hall1⟩ :=
      fold_steps_ok (subgraphXStep (x0 :: xs) sk) sk (x0.map Prod.fst) hstep ([], [])
    simp only [List.nil_append] at hf1
    refine ⟨⟨xd, yd⟩, f1 ++ f2, ?_, ?_⟩
    · simp only [initNormalizerImpl, subgraphInitNormalizerImpl]
      rw [hf1, hyd]
    · intro s hs
      rcases List.mem_append.mp hs with h | h
      · exact hall1 s h
      · exact hall2 s h

/-- Claim C2 (counterexample): the spec mode strings standard and min-max
are both rejected at construction time with the fatal ValueError; the
strings the code accepts are Standard and MinMax (the error message of
dataset.py line 37 even names the rejected spelling standard, and the
default argument of __init__ is the rejected standard). -/
theorem lowercase_mode_strings_rejected :
    mkDataset .op "k" [c2x0] [c2y0] (.str "standard")
        = (.error (.valueError invalidStringNormalizationMsg), [])
    ∧ mkDataset .op "k" [c2x0] [c2y0] (.str "min-max")
        = (.error (.valueError invalidStringNormalizationMsg), []) := ⟨rfl, rfl⟩

/-- Claim C2 (amended): dataset construction accepts exactly the two mode
strings Standard (StandardScaler: zero mean, unit variance) and MinMax
(MinMaxScaler: rescale to [0, 1]): for well-formed nonempty inputs
construction with either string succeeds and every scaler fit it performs
uses the corresponding scaler class, while construction with any other
mode string fails with the fatal ValueError of dataset.py line 37. -/
theorem mode_string_dispatch (variant : DatasetVariant) (key : String)
    (x0 y0 : Sample) (xs ys : List Sample)
    (hx : ∀ x ∈ x0 :: xs, x.map Prod.fst = x0.map Prod.fst)
    (hy : ∀ y ∈ y0 :: ys, y.map Prod.fst = y0.map Prod.fst) :
    (∃ d fits, mkDataset variant key (x0 :: xs) (y0 :: ys) (.str "Standard")
        = (.ok d, fits) ∧ ∀ s ∈ fits, s = ScalerKind.standard)
    ∧ (∃ d fits, mkDataset variant key (x0 :: xs) (y0 :: ys) (.str "MinMax")
        = (.ok d, fits) ∧ ∀ s ∈ fits, s = ScalerKind.minMax)
    ∧ (∀ s : String, s ≠ "Standard" → s ≠ "MinMax" →
        mkDataset variant key (x0 :: xs) (y0 :: ys) (.str s)
          = (.error (.valueError invalidStringNormalizationMsg), [])) := by
  refine ⟨?_, ?_, ?_⟩
  · obtain ⟨n, fits, himpl, hall⟩ := initNormalizerImpl_ok variant .standard x0 y0 xs ys hx hy
    refine ⟨⟨key, x0 :: xs, y0 :: ys, none⟩, fits, ?_, hall⟩
    simp only [mkDataset, if_pos rfl]
    rw [himpl]
    simp
  · obtain ⟨n, fits, himpl, hall⟩ := initNormalizerImpl_ok variant .minMax x0 y0 xs ys hx hy
    refine ⟨⟨key, x0 :: xs, y0 :: ys, none⟩, fits, ?_, hall⟩
    simp only [mkDataset, if_neg (by decide : ¬("MinMax" = "Standard")), if_pos rfl]
    rw [himpl]
    simp
  · intro s hs1 hs2
    simp only [mkDataset, if_neg hs1, if_neg hs2]

/-- Claim C2 (witness): the dispatch theorem at a concrete well-formed
one-sample input. -/
theorem mode_string_dispatch_witness :
    (∃ d fits, mkDataset .op "k" [c2x0] [c2y0] (.str "Standard")
        = (.ok d, fits) ∧ ∀ s ∈ fits, s = ScalerKind.standard)
    ∧ (∃ d fits, mkDataset .op "k" [c2x0] [c2y0] (.str "MinMax")
        = (.ok d, fits) ∧ ∀ s ∈ fits, s = ScalerKind.minMax)
    ∧ (∀ s : String, s ≠ "Standard" → s ≠ "MinMax" →
        mkDataset .op "k" [c2x0] [c2y0] (.str s)
          = (.error (.valueError invalidStringNormalizationMsg), [])) :=
  mode_string_dispatch .op "k" c2x0 c2y0 [] []
    (by intro x hx; simp only [List.mem_singleton] at hx; subst hx; rfl)
    (by intro y hy; simp only [List.mem_singleton] at hy; subst hy; rfl)

theorem option_some_bind {α β : Type} (a : α) (f : α → Option β) :
    (some a >>= f) = f a := rfl

theorem alLookup_map_entry {α β : Type} (f : String → α → β) (l : List (String × α))
    (q : String) :
    alLookup (l.map (fun p => (p.1, f p.1 p.2))) q = (alLookup l q).map (f q) := by
  induction l with
  | nil => rfl
  | cons p rest ih =>
    obtain ⟨k, v⟩ := p
    by_cases h : k = q
    · subst h
      simp [alLookup]
    · simp [alLookup, h, ih]

theorem make_tensor_lookup (b : Batch) (q : String) :
    alLookup (make_tensor b) q = (alLookup b q).map (convertTop q) := by
  unfold make_tensor
  exact alLookup_map_entry convertTop b q

theorem make_tensor_keys (b : Batch) : (make_tensor b).map Prod.fst = b.map Prod.fst := by
  unfold make_tensor
  rw [List.map_map]
  rfl

theorem addToLabels_lookup (items : List (String × PyVal)) :
    ∀ (m : List (String × List PyVal)) (q : String),
      (items.map Prod.fst).Nodup →
      alLookup (addToLabels m items) q =
        if q ∈ items.map Prod.fst
        then some (((alLookup m q).getD []) ++ [pyGetD items q])
        else alLookup m q := by
  induction items with
  | nil =>
    intro m q _
    simp [addToLabels]
  | cons p rest ih =>
    intro m q hnd
    obtain ⟨k, v⟩ := p
    simp only [List.map_cons, List.nodup_cons] at hnd
    have hstep : addToLabels m ((k, v) :: rest)
        = addToLabels (alSet m k (((alLookup m k).getD []) ++ [v])) rest := rfl
    rw [hstep, ih _ q hnd.2]
    simp only [List.map_cons]
    by_cases hq : q = k
    · subst hq
      rw [if_neg (fun hmem => hnd.1 hmem), if_pos (List.mem_cons_self q _)]
      rw [alLookup_alSet_self]
      have hpy : pyGetD ((q, v) :: rest) q = v := by
        unfold pyGetD
        rw [alLookup_cons, if_pos rfl]
        rfl
      rw [hpy]
    · have hlook : alLookup (alSet m k (((alLookup m k).getD []) ++ [v])) q
          = alLookup m q := alLookup_alSet_ne _ _ _ _ hq
      have hpy : pyGetD ((k, v) :: rest) q = pyGetD rest q := by
        unfold pyGetD
        rw [alLookup_cons, if_neg (fun hh => hq hh.symm)]
      by_cases hmem : q ∈ rest.map Prod.fst
      · rw [if_pos hmem, if_pos (List.mem_cons_of_mem _ hmem), hlook, hpy]
      · rw [if_neg hmem, hlook,
          if_neg (by
            intro hc
            rcases List.mem_cons.mp hc with h | h
            · exact hq h
            · exact hmem h)]

theorem addToLabels_keys (items : List (String × PyVal)) :
    ∀ m, (addToLabels m items).map Prod.fst
      = keysAfter (m.map Prod.fst) (items.map Prod.fst) := by
  induction items with
  | nil => intro m; rfl
  | cons p rest ih =>
    intro m
    obtain ⟨k, v⟩ := p
    have hstep : addToLabels m ((k, v) :: rest)
        = addToLabels (alSet m k (((alLookup m k).getD []) ++ [v])) rest := rfl
    rw [hstep, ih]
    simp only [List.map_cons, keysAfter_cons]
    congr 1
    exact alSet_keys m k _

theorem goodShape_nil : goodShape [] :=
  ⟨fun _ _ _ h => by simp at h, fun _ h => by simp at h⟩

theorem goodShape_set_leaf (b : Batch) (k : String) (l : List PyVal)
    (hsh : goodShape b) (hk : ¬ k = "labels") :
    goodShape (alSet b k (.leaf l)) := by
  constructor
  · intro q v hq hv
    by_cases hqk : q = k
    · subst hqk
      rw [alLookup_alSet_self] at hv
      injection hv with hv
      exact ⟨l, hv.symm⟩
    · rw [alLookup_alSet_ne _ _ _ _ hqk] at hv
      exact hsh.1 q v hq hv
  · intro v hv
    rw [alLookup_alSet_ne _ _ _ _ (fun h => hk h.symm)] at hv
    exact hsh.2 v hv

theorem goodShape_set_nested (b : Batch) (m : List (String × List PyVal))
    (hsh : goodShape b) :
    goodShape (alSet b "labels" (.nested m)) := by
  constructor
  · intro q v hq hv
    rw [alLookup_alSet_ne _ _ _ _ hq] at hv
    exact hsh.1 q v hq hv
  · intro v hv
    rw [alLookup_alSet_self] at hv
    injection hv with hv
    exact ⟨m, hv.symm⟩

theorem collStep_label (b : Batch) (ls : List (String × PyVal)) (hsh : goodShape b) :
    collStep b ("label", PyVal.dict ls)
      = some (alSet b "labels" (.nested (addToLabels (oldNested b) ls))) := by
  unfold collStep
  rw [if_pos rfl]
  cases h : alLookup b "labels" with
  | none =>
    have hn : oldNested b = [] := by unfold oldNested; rw [h]
    rw [hn]
  | some v =>
    obtain ⟨m, hm⟩ := hsh.2 v h
    subst hm
    have hn : oldNested b = m := by unfold oldNested; rw [h]
    rw [hn]

theorem collStep_nonlabel (b : Batch) (k : String) (v : PyVal)
    (hk : ¬ k = "label") (hk2 : ¬ k = "labels") (hsh : goodShape b) :
    collStep b (k, v) = some (alSet b k (.leaf (oldLeaf b k ++ [v]))) := by
  unfold collStep
  rw [if_neg hk]
  cases h : alLookup b k with
  | none =>
    have hl : oldLeaf b k = [] := by unfold oldLeaf; rw [h]
    rw [hl, List.nil_append]
  | some w =>
    obtain ⟨l, hw⟩ := hsh.1 k w hk2 h
    subst hw
    have hl : oldLeaf b k = l := by unfold oldLeaf; rw [h]
    rw [hl]

theorem addSample_spec (es : List (String × PyVal)) :
    ∀ b : Batch, goodShape b →
      (es.map Prod.fst).Nodup →
      "labels" ∉ es.map Prod.fst →
      (∀ v, ("label", v) ∈ es → ∃ ls, v = PyVal.dict ls) →
      ∃ bb, List.foldlM collStep b es = some bb
        ∧ goodShape bb
        ∧ bb.map Prod.fst = keysAfter (b.map Prod.fst) ((es.map Prod.fst).map collKey)
        ∧ (∀ q, ¬ q = "labels" → q ∉ es.map Prod.fst → alLookup bb q = alLookup b q)
        ∧ (∀ q, ¬ q = "label" → q ∈ es.map Prod.fst →
            alLookup bb q = some (.leaf (oldLeaf b q ++ [pyGetD es q])))
        ∧ ("label" ∈ es.map Prod.fst →
            alLookup bb "labels" = some (.nested (addToLabels (oldNested b) (labelItems es))))
        ∧ ("label" ∉ es.map Prod.fst → alLookup bb "labels" = alLookup b "labels") := by
  induction es with
  | nil =>
    intro b hsh _ _ _
    exact ⟨b, rfl, hsh, rfl, fun _ _ _ => rfl,
      fun q _ hq => absurd hq (List.not_mem_nil q),
      fun h => absurd h (List.not_mem_nil _), fun _ => rfl⟩
  | cons p rest ih =>
    intro b hsh hnd hnl hdict
    obtain ⟨k, v⟩ := p
    simp only [List.map_cons, List.nodup_cons] at hnd
    simp only [List.map_cons, List.mem_cons] at hnl
    push_neg at hnl
    by_cases hk : k = "label"
    · subst hk
      obtain ⟨ls, hls⟩ := hdict v (List.mem_cons_self _ _)
      subst hls
      obtain ⟨bb, hfold, hshbb, hkeys, hunch, hleaf, hlabin, hlabout⟩ :=
        ih (alSet b "labels" (.nested (addToLabels (oldNested b) ls)))
          (goodShape_set_nested b _ hsh) hnd.2 hnl.2
          (fun w hw => hdict w (List.mem_cons_of_mem _ hw))
      refine ⟨bb, ?_, hshbb, ?_, ?_, ?_, ?_, ?_⟩
      · rw [List.foldlM_cons, collStep_label b ls hsh, option_some_bind]
        exact hfold
      · rw [hkeys]
        simp only [List.map_cons]
        rw [show collKey "label" = "labels" from rfl, keysAfter_cons]
        congr 1
        exact alSet_keys b "labels" _
      · intro q hq hqmem
        simp only [List.map_cons, List.mem_cons] at hqmem
        push_neg at hqmem
        rw [hunch q hq hqmem.2]
        exact alLookup_alSet_ne _ _ _ _ hq
      · intro q hq hqmem
        simp only [List.map_cons, List.mem_cons] at hqmem
        rcases hqmem with h | h
        · exact absurd h hq
        · rw [hleaf q hq h]
          have hqlbs : ¬ q = "labels" := fun hh => hnl.2 (hh ▸ h)
          have h1 : oldLeaf (alSet b "labels" (.nested (addToLabels (oldNested b) ls))) q
              = oldLeaf b q := by
            unfold oldLeaf
            rw [alLookup_alSet_ne _ _ _ _ hqlbs]
          have h2 : pyGetD (("label", PyVal.dict ls) :: rest) q = pyGetD rest q := by
            unfold pyGetD
            rw [alLookup_cons, if_neg (fun hh => hq hh.symm)]
          rw [h1, h2]
      · intro _
        have h2 : labelItems (("label", PyVal.dict ls) :: rest) = ls := by
          unfold labelItems
          rw [alLookup_cons, if_pos rfl]
        rw [hlabout hnd.1, alLookup_alSet_self, h2]
      · intro h
        exact absurd (by simp : "label" ∈ List.map Prod.fst (("label", PyVal.dict ls) :: rest)) h
    · have hk2 : ¬ k = "labels" := fun hh => hnl.1 hh.symm
      obtain ⟨bb, hfold, hshbb, hkeys, hunch, hleaf, hlabin, hlabout⟩ :=
        ih (alSet b k (.leaf (oldLeaf b k ++ [v])))
          (goodShape_set_leaf b k _ hsh hk2) hnd.2 hnl.2
          (fun w hw => hdict w (List.mem_cons_of_mem _ hw))
      refine ⟨bb, ?_, hshbb, ?_, ?_, ?_, ?_, ?_⟩
      · rw [List.foldlM_cons, collStep_nonlabel b k v hk hk2 hsh, option_some_bind]
        exact hfold
      · rw [hkeys]
        simp only [List.map_cons]
        rw [show collKey k = k from by unfold collKey; rw [if_neg hk], keysAfter_cons]
        congr 1
        exact alSet_keys b k _
      · intro q hq hqmem
        simp only [List.map_cons, List.mem_cons] at hqmem
        push_neg at hqmem
        rw [hunch q hq hqmem.2]
        exact alLookup_alSet_ne _ _ _ _ hqmem.1
      · intro q hq hqmem
        simp only [List.map_cons, List.mem_cons] at hqmem
        rcases hqmem with h | h
        · subst h
          rw [hunch q hk2 hnd.1, alLookup_alSet_self]
          have hpy : pyGetD ((q, v) :: rest) q = v := by
            unfold pyGetD
            rw [alLookup_cons, if_pos rfl]
            rfl
          rw [hpy]
        · have hqk : ¬ q = k := fun hh => hnd.1 (hh ▸ h)
          rw [hleaf q hq h]
          have h1 : oldLeaf (alSet b k (.leaf (oldLeaf b k ++ [v]))) q = oldLeaf b q := by
            unfold oldLeaf
            rw [alLookup_alSet_ne _ _ _ _ hqk]
          have h2 : pyGetD ((k, v) :: rest) q = pyGetD rest q := by
            unfold pyGetD
            rw [alLookup_cons, if_neg (fun hh => hqk hh.symm)]
          rw [h1, h2]
      · intro hmem
        simp only [List.map_cons, List.mem_cons] at hmem
        rcases hmem with h | h
        · exact absurd h.symm hk
        · rw [hlabin h]
          have h1 : oldNested (alSet b k (.leaf (oldLeaf b k ++ [v]))) = oldNested b := by
            unfold oldNested
            rw [alLookup_alSet_ne _ _ _ _ (fun hh => hk2 hh.symm)]
          have h2 : labelItems ((k, v) :: rest) = labelItems rest := by
            unfold labelItems
            rw [alLookup_cons, if_neg hk]
          rw [h1, h2]
      · intro hmem
        simp only [List.map_cons, List.mem_cons] at hmem
        push_neg at hmem
        rw [hlabout hmem.2]
        exact alLookup_alSet_ne _ _ _ _ (fun hh => hk2 hh.symm)

theorem addSample_inv (K LK : List String) (hK : K.Nodup) (hnlbs : "labels" ∉ K)
    (hLK : LK.Nodup) (acc : List Sample) (b : Batch) (s : Sample)
    (hinv : collectInv K LK acc b) (hs : sampleOk K LK s) :
    ∃ bb, addSample b s = some bb ∧ collectInv K LK (acc ++ [s]) bb := by
  obtain ⟨hperm, ls, hls, hlperm⟩ := hs
  have hsnd : (s.map Prod.fst).Nodup := hperm.nodup_iff.mpr hK
  have hsnl : "labels" ∉ s.map Prod.fst := fun h => hnlbs (hperm.mem_iff.mp h)
  have hdict : ∀ v, ("label", v) ∈ s → ∃ ls2, v = PyVal.dict ls2 := by
    intro v hv
    have hlv := alLookup_of_mem_of_nodup s "label" v hv hsnd
    rw [hls] at hlv
    injection hlv with hlv
    exact ⟨ls, hlv.symm⟩
  have hlabmem : "label" ∈ s.map Prod.fst :=
    alLookup_mem_keys_of_isSome s "label" (by rw [hls]; rfl)
  obtain ⟨bb, hfold, hshbb, hkeys, hunch, hleaf, hlabin, hlabout⟩ :=
    addSample_spec s b hinv.1 hsnd hsnl hdict
  have hlsnd : (ls.map Prod.fst).Nodup := hlperm.nodup_iff.mpr hLK
  have hlitems : labelItems s = ls := by unfold labelItems; rw [hls]
  have hlget : ∀ vk, labelGetD s vk = pyGetD ls vk := by
    intro vk
    unfold labelGetD pyGetD
    rw [hlitems]
  refine ⟨bb, hfold, hshbb, fun hne => absurd hne (by simp), fun _ => ?_⟩
  by_cases hacc : acc = []
  · subst hacc
    have hb : b = [] := hinv.2.1 rfl
    subst hb
    refine ⟨?_, ?_, ?_⟩
    · rw [hkeys]
      have hmapnd : (((s.map Prod.fst).map collKey)).Nodup := by
        refine List.Nodup.map_on ?_ hsnd
        intro x hx y hy hxy
        unfold collKey at hxy
        by_cases h1 : x = "label" <;> by_cases h2 : y = "label"
        · rw [h1, h2]
        · rw [if_pos h1, if_neg h2] at hxy
          exact absurd hxy.symm (fun hh => hsnl (hh ▸ hy))
        · rw [if_neg h1, if_pos h2] at hxy
          exact absurd hxy (fun hh => hsnl (hh ▸ hx))
        · rw [if_neg h1, if_neg h2] at hxy
          exact hxy
      rw [show (([] : Batch)).map Prod.fst = ([] : List String) from rfl]
      rw [keysAfter_eq_append [] _ (by simpa using hmapnd), List.nil_append]
      exact hperm.map collKey
    · intro q hqK hql
      have hqs : q ∈ s.map Prod.fst := hperm.mem_iff.mpr hqK
      rw [hleaf q hql hqs]
      have hol : oldLeaf [] q = [] := rfl
      rw [hol, List.nil_append]
      simp
    · refine ⟨addToLabels [] ls, ?_, ?_, ?_⟩
      · rw [hlabin hlabmem, hlitems]
        rfl
      · rw [addToLabels_keys, show (([] : List (String × List PyVal))).map Prod.fst
            = ([] : List String) from rfl,
          keysAfter_eq_append [] _ (by simpa using hlsnd), List.nil_append]
        exact hlperm
      · intro vk hvk
        have hvks : vk ∈ ls.map Prod.fst := hlperm.mem_iff.mpr hvk
        rw [addToLabels_lookup ls [] vk hlsnd, if_pos hvks]
        simp [hlget vk]
  · obtain ⟨hbperm, hbleaf, m, hm, hmperm, hmlk⟩ := hinv.2.2 hacc
    refine ⟨?_, ?_, ?_⟩
    · rw [hkeys, keysAfter_eq_self]
      · exact hbperm
      · intro q hq
        obtain ⟨k0, hk0mem, hk0eq⟩ := List.mem_map.mp hq
        have hk0K : k0 ∈ K := hperm.mem_iff.mp hk0mem
        have : collKey k0 ∈ K.map collKey := List.mem_map_of_mem collKey hk0K
        exact hbperm.mem_iff.mpr (hk0eq ▸ this)
    · intro q hqK hql
      have hqs : q ∈ s.map Prod.fst := hperm.mem_iff.mpr hqK
      rw [hleaf q hql hqs]
      have hob : oldLeaf b q = acc.map (fun s' => pyGetD s' q) := by
        unfold oldLeaf
        rw [hbleaf q hqK hql]
      rw [hob]
      simp [List.map_append]
    · refine ⟨addToLabels m ls, ?_, ?_, ?_⟩
      · rw [hlabin hlabmem, hlitems]
        have hon : oldNested b = m := by unfold oldNested; rw [hm]
        rw [hon]
      · rw [addToLabels_keys, keysAfter_eq_self]
        · exact hmperm
        · intro q hq
          have : q ∈ LK := hlperm.mem_iff.mp hq
          exact hmperm.mem_iff.mpr this
      · intro vk hvk
        have hvks : vk ∈ ls.map Prod.fst := hlperm.mem_iff.mpr hvk
        rw [addToLabels_lookup ls m vk hlsnd, if_pos hvks, hmlk vk hvk]
        simp [hlget vk, List.map_append]

theorem collect_fold (K LK : List String) (hK : K.Nodup) (hnlbs : "labels" ∉ K)
    (hLK : LK.Nodup) :
    ∀ (ss : List Sample) (acc : List Sample) (b : Batch),
      collectInv K LK acc b → (∀ s ∈ ss, sampleOk K LK s) →
      ∃ bb, List.foldlM addSample b ss = some bb ∧ collectInv K LK (acc ++ ss) bb := by
  intro ss
  induction ss with
  | nil =>
    intro acc b hinv _
    exact ⟨b, rfl, by simpa using hinv⟩
  | cons s rest ih =>
    intro acc b hinv hok
    obtain ⟨b1, h1, hinv1⟩ :=
      addSample_inv K LK hK hnlbs hLK acc b s hinv (hok s (List.mem_cons_self s rest))
    obtain ⟨bb, h2, hinv2⟩ :=
      ih (acc ++ [s]) b1 hinv1 (fun x hx => hok x (List.mem_cons_of_mem s hx))
    refine ⟨bb, ?_, ?_⟩
    · rw [List.foldlM_cons, h1, option_some_bind]
      exact h2
    · have heq : (acc ++ [s]) ++ rest = acc ++ s :: rest := by simp
      rw [heq] at hinv2
      exact hinv2

/-- Claim C6 (amended): for a nonempty batch of samples sharing a
duplicate-free top-level key set K (not containing the output reserved key
labels) and each carrying the reserved label sub-dictionary with a shared
duplicate-free sub-key set LK, the collator succeeds; every non-label key
of K maps to the converted container of the per-sample values in input
order (one entry per sample), the labels key maps to a nested dict with
exactly the sub-keys LK, each mapping to the converted container of the
per-sample label values in input order, and the top-level output keys are
exactly the sample keys with label replaced by labels (so no label entry
is mixed into the top level). -/
theorem collator_batch_spec (K LK : List String) (samples : List Sample)
    (h0 : samples ≠ []) (hK : K.Nodup) (hnlbs : "labels" ∉ K) (hLK : LK.Nodup)
    (hs : ∀ s ∈ samples, sampleOk K LK s) :
    ∃ out, data_collator samples = some out
      ∧ (out.map Prod.fst).Perm (K.map collKey)
      ∧ (∀ q ∈ K, ¬ q = "label" →
          alLookup out q = some (.val (convertLeaf q (samples.map (fun s => pyGetD s q)))))
      ∧ ∃ m, alLookup out "labels" = some (.ndict m)
          ∧ (m.map Prod.fst).Perm LK
          ∧ ∀ vk ∈ LK, alLookup m vk
              = some (convertLeaf vk (samples.map (fun s => labelGetD s vk))) := by
  have hinv0 : collectInv K LK [] [] :=
    ⟨goodShape_nil, fun _ => rfl, fun h => absurd rfl h⟩
  obtain ⟨bb, hfold, hinv⟩ := collect_fold K LK hK hnlbs hLK samples [] [] hinv0 hs
  obtain ⟨hbperm, hbleaf, m, hm, hmperm, hmlk⟩ := hinv.2.2 (by simpa using h0)
  refine ⟨make_tensor bb, ?_, ?_, ?_, ?_⟩
  · unfold data_collator collectBatch
    rw [hfold]
    rfl
  · rw [make_tensor_keys]
    exact hbperm
  · intro q hqK hql
    rw [make_tensor_lookup, hbleaf q hqK hql]
    rfl
  · refine ⟨m.map (fun r => (r.1, convertLeaf r.1 r.2)), ?_, ?_, ?_⟩
    · rw [make_tensor_lookup, hm]
      rfl
    · have hk : (m.map (fun r => (r.1, convertLeaf r.1 r.2))).map Prod.fst
          = m.map Prod.fst := by
        rw [List.map_map]
        rfl
      rw [hk]
      exact hmperm
    · intro vk hvk
      rw [alLookup_map_entry (fun k l => convertLeaf k l) m vk, hmlk vk hvk]
      rfl

/-- Claim C6 (witness): the collator specification at a concrete batch of
two well-formed samples. -/
theorem collator_batch_spec_witness :
    ∃ out, data_collator w6 = some out
      ∧ (out.map Prod.fst).Perm ((["a_feat", "id", "label"]).map collKey)
      ∧ (∀ q ∈ ["a_feat", "id", "label"], ¬ q = "label" →
          alLookup out q = some (.val (convertLeaf q (w6.map (fun s => pyGetD s q)))))
      ∧ ∃ m, alLookup out "labels" = some (.ndict m)
          ∧ (m.map Prod.fst).Perm ["y_feat"]
          ∧ ∀ vk ∈ ["y_feat"], alLookup m vk
              = some (convertLeaf vk (w6.map (fun s => labelGetD s vk))) :=
  collator_batch_spec ["a_feat", "id", "label"] ["y_feat"] w6
    (by simp [w6]) (by decide) (by decide) (by decide)
    (by
      intro s hsm
      simp only [w6, List.mem_cons, List.mem_singleton, List.not_mem_nil, or_false] at hsm
      rcases hsm with rfl | rfl
      · exact ⟨List.Perm.refl _, [("y_feat", PyVal.num 10)], rfl, List.Perm.refl _⟩
      · exact ⟨List.Perm.refl _, [("y_feat", PyVal.num 20)], rfl, List.Perm.refl _⟩)

/-- Claim C6 (counterexample): two batches satisfying the claim as stated
(shared top-level key set, every sample carrying the reserved label
sub-dictionary) on which the claimed output shape fails. On ce6a (a
feature key literally named labels) collation crashes; on ce6b (label
sub-dictionaries with disjoint sub-keys) the label sub-containers hold one
entry each although the batch has two samples. -/
theorem collator_shared_keys_counterexample :
    data_collator ce6a = none
    ∧ data_collator ce6b
        = some [("labels", OutTop.ndict
            [("a_feat", OutVal.floatTensor [PyVal.num 1]),
             ("b_feat", OutVal.floatTensor [PyVal.num 2])])]
    ∧ ce6b.length = 2
    ∧ [PyVal.num 1].length = 1 :=
  ⟨rfl, rfl, rfl, rfl⟩

theorem convOkVal_convertLeaf (k : String) (l : List PyVal) :
    convOkVal k (convertLeaf k l) := by
  unfold convertLeaf
  cases h : strEndsWith k FeatureKeys.FEAT_SUFFIX <;> simp [h, convOkVal]

/-- Claim C7: in the collated output, every leaf container (including
those nested under the labels dict) is a float tensor exactly when its key
name ends with the tensor-bound suffix, and a plain array otherwise. -/
theorem make_tensor_suffix_rule :
    ∀ (samples : List Sample) (out : List (String × OutTop)),
      data_collator samples = some out → ∀ p ∈ out, convOk p.1 p.2 := by
  intro samples out h p hp
  unfold data_collator at h
  cases hb : collectBatch samples with
  | none =>
    rw [hb] at h
    simp at h
  | some b =>
    rw [hb] at h
    simp only [Option.map_some'] at h
    injection h with h
    subst h
    unfold make_tensor at hp
    obtain ⟨r, hr, hpr⟩ := List.mem_map.mp hp
    subst hpr
    show convOk r.1 (convertTop r.1 r.2)
    cases hr2 : r.2 with
    | leaf l =>
      unfold convertTop convOk
      exact convOkVal_convertLeaf r.1 l
    | nested m =>
      unfold convertTop convOk
      intro q hq
      obtain ⟨r2, hr2m, hr2eq⟩ := List.mem_map.mp hq
      subst hr2eq
      exact convOkVal_convertLeaf r2.1 r2.2

/-- Claim C7 (witness): the suffix rule applied to a concrete collated
entry of w7samples. -/
theorem make_tensor_suffix_rule_witness :
    convOk "x_feat" (OutTop.val (OutVal.floatTensor [PyVal.num 1])) :=
  make_tensor_suffix_rule w7samples w7out rfl
    ("x_feat", OutTop.val (OutVal.floatTensor [PyVal.num 1]))
    (List.mem_cons_self _ _)

end DLT
